import Mathlib

/-!
Verification development for the LLM model wrapper (`ludwig/models/llm.py`).

The Python module is shallowly embedded below.  Tensors are modelled as
nested lists (token tensors as lists of integer rows, logit tensors as
lists of rational matrices) together with the metadata the code
manipulates (dtype, device).  Python dictionaries are association lists;
Python object references for the dictionaries whose mutation the claims
talk about (the adapter config, the targets mapping) are modelled with a
small explicit store of references, so that `copy.deepcopy` plus in-place
mutation is observable.  Fallible Python code (assertions, KeyError,
IndexError, ValueError, missing files) is embedded with `Except`.
External collaborators (the transformers backbone, the peft wrapper, the
feature build/decoder/loss/metric contracts) are supplied through an
`Env` record of abstract functions, exactly at the narrow interfaces the
source uses them.
-/

namespace LudwigLLM

/-- Python exception kinds the embedded code can raise. -/
inductive PyError where
  | assertionError
  | keyError
  | indexError
  | valueError
  | attributeError
  | typeError
  | fileNotFoundError
deriving DecidableEq, Repr

/-- Python values appearing in the (untyped) adapter config dict. -/
inductive PyVal where
  | str (s : String)
  | int (n : Int)
deriving DecidableEq, Repr

/-- Python dict lookup `d[k]` / `d.get(k)` on an association list. -/
def dictGet {α : Type} : List (String × α) → String → Option α
  | [], _ => none
  | kv :: rest, k => if kv.1 == k then some kv.2 else dictGet rest k

/-- Python dict key test `k in d`. -/
def dictContains {α : Type} : List (String × α) → String → Bool
  | [], _ => false
  | kv :: rest, k => kv.1 == k || dictContains rest k

/-- Python dict removal (the effect of `d.pop(k)` on the dict). -/
def dictRemove {α : Type} (d : List (String × α)) (k : String) : List (String × α) :=
  d.filter (fun kv => kv.1 != k)

/-- Python dict assignment `d[k] = v`: overwrite in place if present, else append. -/
def dictSet {α : Type} (d : List (String × α)) (k : String) (v : α) : List (String × α) :=
  if dictContains d k then
    d.map (fun kv => if kv.1 == k then (k, v) else kv)
  else d ++ [(k, v)]

/-- A Python adapter config dict: option name to value. -/
abbrev AdapterDict := List (String × PyVal)

/-- Heap references for the mutable Python dicts the claims reason about. -/
abbrev Ref := Nat

/-- A tiny heap: contents of every reference plus the next fresh reference. -/
structure Store (α : Type) where
  mem : Ref → α
  next : Ref

/-- Read the dict behind a reference. -/
def Store.read {α : Type} (σ : Store α) (r : Ref) : α := σ.mem r

/-- In-place mutation of the dict behind a reference. -/
def Store.write {α : Type} (σ : Store α) (r : Ref) (v : α) : Store α :=
  ⟨fun x => if x = r then v else σ.mem x, σ.next⟩

/-- Allocation of a fresh dict (the effect of `copy.deepcopy`). -/
def Store.alloc {α : Type} (σ : Store α) (v : α) : Ref × Store α :=
  (σ.next, ⟨fun x => if x = σ.next then v else σ.mem x, σ.next + 1⟩)

/-! ### Tensors -/

/-- Torch device of a tensor (only cpu versus the model's device matter here). -/
inductive Device where
  | cpu
  | cuda
deriving DecidableEq, Repr

/-- Torch floating dtypes occurring in the source. -/
inductive DType where
  | float16
  | float32
deriving DecidableEq, Repr

/-- A 2-d integer tensor `[batch, seq]` of token ids (or token predictions). -/
structure Tensor2 where
  data : List (List Int)
  device : Device
deriving DecidableEq, Repr

/-- `t.to(device)`. -/
def Tensor2.toDev (t : Tensor2) (d : Device) : Tensor2 := ⟨t.data, d⟩

/-- `t.size()[1]`: the length of the second dimension. -/
def Tensor2.size1 (t : Tensor2) : Nat := (t.data.headD []).length

/-- `t.type(torch.int32)`: cast every entry to a 32-bit signed integer. -/
def toInt32 (v : Int) : Int := (v + 2 ^ 31) % 2 ^ 32 - 2 ^ 31

/-- Elementwise int32 cast of a token tensor. -/
def Tensor2.typeInt32 (t : Tensor2) : Tensor2 :=
  ⟨t.data.map (fun row => row.map toInt32), t.device⟩

/-- A 3-d rational tensor `[batch, seq, vocab]` (model logits), with dtype. -/
structure Tensor3 where
  data : List (List (List Rat))
  dtype : DType
  device : Device

/-- A 2-d rational tensor `[batch, vocab]`, with dtype. -/
structure Tensor2R where
  data : List (List Rat)
  dtype : DType
  device : Device

/-- `t.to(device)` for rational 2-d tensors. -/
def Tensor2R.toDev (t : Tensor2R) (d : Device) : Tensor2R := ⟨t.data, t.dtype, d⟩

/-- Columnwise sum of a batch element's rows, starting from a first row. -/
def sumColumns (acc : List Rat) (rest : List (List Rat)) : List Rat :=
  rest.foldl (fun a row => List.zipWith (fun x y => x + y) a row) acc

/-- Mean of the rows of one batch element (torch mean over dim 1). -/
def meanRows : List (List Rat) → List Rat
  | [] => []
  | r :: rs => (sumColumns r rs).map (fun x => x / ((rs.length + 1 : Nat) : Rat))

/-- `torch.mean(t, dim=1, dtype=torch.float32)`: average over the sequence
dimension, producing a `[batch, vocab]` tensor in 32-bit float dtype. -/
def torchMeanDim1F32 (t : Tensor3) : Tensor2R :=
  ⟨t.data.map meanRows, DType.float32, t.device⟩

/-! ### Python slicing and torch padding -/

/-- Python list slice `xs[start:]` with Python's index normalisation:
a negative start counts from the end (clamped at 0), a nonnegative start
is clamped at the length. -/
def pySliceFrom {α : Type} (start : Int) (xs : List α) : List α :=
  if start < 0 then xs.drop ((xs.length : Int) + start).toNat
  else xs.drop start.toNat

/-- `torch.nn.functional.pad` on the last dimension of one row with a
constant 0: a nonnegative amount appends zeros on the right, a negative
amount removes elements from the right (torch's negative-padding
semantics). -/
def padRow (r : List Int) (amt : Int) : List Int :=
  if 0 ≤ amt then r ++ List.replicate amt.toNat 0
  else r.take (r.length - (-amt).toNat)

/-- `torch.nn.functional.pad(t, (0, amt), "constant", 0)` on a `[batch, seq]`
tensor: pad (or, when negative, trim) the last dimension of every row. -/
def torchPadLastDim (t : Tensor2) (amt : Int) : Tensor2 :=
  ⟨t.data.map (fun row => padRow row amt), t.device⟩

/-! ### Configuration objects -/

/-- `generation_config` (only `max_new_tokens` is read by this module). -/
structure GenerationConfigL where
  max_new_tokens : Nat
deriving DecidableEq, Repr

/-- An input feature config (only its name is read by this module). -/
structure FeatureConfigL where
  name : String
deriving DecidableEq, Repr

/-- An output feature config; `build_outputs` assigns its `input_size`. -/
structure OutputFeatureConfigL where
  name : String
  input_size : Option Nat
deriving DecidableEq, Repr

/-- `LLMModelConfig`: the model config object handed to the constructor.
Its `adapter` field is a reference to a Python dict (or `None`). -/
structure LLMModelConfigL where
  model_name : String
  adapter : Option Ref
  generation_config : GenerationConfigL
  input_features : List FeatureConfigL
  output_features : List OutputFeatureConfigL
deriving DecidableEq, Repr

/-- The relevant fields of the backbone's `config` object. -/
structure BackboneConfig where
  max_sequence_length : Option Nat
  max_position_embeddings : Option Nat
  vocab_size : Nat
deriving DecidableEq, Repr

/-- The relevant fields of a saved `PeftConfig`. -/
structure PeftConfigL where
  base_model_name_or_path : String
  inference_mode : Bool
deriving DecidableEq, Repr

/-- Provenance of the currently held model object: a fresh pretrained
backbone, a peft-wrapped backbone, or a peft model restored from saved
adapter weights. -/
inductive PModel where
  | pretrained (name : String)
  | peft (inner : PModel) (adapterCfg : AdapterDict)
  | peftFromSaved (inner : PModel) (path : String)
deriving DecidableEq, Repr

/-- The model identifier of the underlying backbone (peft wrappers expose
the wrapped backbone's `config`). -/
def PModel.rootName : PModel → String
  | .pretrained n => n
  | .peft m _ => m.rootName
  | .peftFromSaved m _ => m.rootName

/-- Generation result returned by `model.generate(...)` with
`return_dict_in_generate=True, output_scores=True`. -/
structure GenResult where
  sequences : List (List Int)
  scores : List (List (List Rat))

/-- A prediction entry: the per-feature dict of prediction tensors
(keys such as "predictions", "probabilities", "logits"). -/
structure PredEntry where
  entries : List (String × Tensor2)
deriving DecidableEq, Repr

/-- A targets dict: feature name to target tensor. -/
abbrev TD := List (String × Tensor2)

/-- A predictions dict: feature name to prediction entry. -/
abbrev PredDict := List (String × PredEntry)

/-- An output feature object, at the narrow contract this module uses:
text-or-not, a loss weight, the decoder object (one contract per forward
path), eval-loss and metric-update functions, and an abstract internal
metric state (the feature's own metrics are an external collaborator). -/
structure OutputFeatureL where
  name : String
  isText : Bool
  lossWeight : Rat
  decodeLogits : Tensor2R → Tensor2R
  decodeGenerated : GenResult → Tensor2 → PredEntry
  evalLossFn : Tensor2 → PredEntry → Rat
  updateMetricsFn : Nat → Tensor2 → PredEntry → Nat
  metricSt : Nat

/-- External collaborators, exactly at the interfaces the source consumes:
the backbone loader's per-model config, the (possibly adapter-augmented)
model's forward/generate behaviour and device, the saved-adapter config
reader, and the base framework's single-output-feature builder. -/
structure Env where
  configOf : String → BackboneConfig
  fwdOf : PModel → List (List Int) → List (List (List Rat))
  deviceOf : PModel → Device
  generateOf : PModel → List (List Int) → Option Tensor2 → GenerationConfigL → GenResult
  peftConfigFromPretrained : String → Option PeftConfigL
  buildSingleOutput : OutputFeatureConfigL → OutputFeatureL

/-- `torchmetrics.MeanMetric`: a running weighted sum and total weight;
`update v` adds `v` with weight 1. -/
structure MeanMetric where
  mean_value : Rat
  weight : Rat
deriving DecidableEq, Repr

/-- `MeanMetric.update(v)`. -/
def MeanMetric.update (m : MeanMetric) (v : Rat) : MeanMetric :=
  ⟨m.mean_value + v, m.weight + 1⟩

/-- The constant `LOGITS` from `ludwig.constants`. -/
def LOGITS : String := "logits"

/-- Modelled from the spec: `MODEL_WEIGHTS_FILE_NAME` (from
`ludwig.globals`, not under src/) is the fixed weights filename used
inside a model's save directory. -/
def MODEL_WEIGHTS_FILE_NAME : String := "model_weights"

/-- `os.path.join` for one component. -/
def joinPath (a b : String) : String := a ++ "/" ++ b

/-- The state of a constructed `LLM` object (the fields of `self` this
module reads or writes).  `adapterRef` is the reference produced by
`copy.deepcopy(config_obj.adapter)`; since the adapter dict is never
mutated after construction, its final value is also cached in `adapter`
for the later truthiness tests. -/
structure LLMState where
  config_obj : LLMModelConfigL
  model_name : String
  adapterRef : Option Ref
  adapter : Option AdapterDict
  model : PModel
  context_len : Nat
  generation_config : GenerationConfigL
  max_new_tokens : Nat
  max_input_length : Int
  input_features : List String
  output_features : List (String × OutputFeatureL)
  output_feature_decoder : OutputFeatureL
  eval_loss_metric : MeanMetric
  eval_additional_losses_metrics : MeanMetric
  additional_losses : List Rat

/-- Python truthiness of `self.adapter` (`None` and the empty dict are falsy). -/
def adapterTruthy : Option AdapterDict → Bool
  | none => false
  | some d => !d.isEmpty

/-- Context-length probe of the constructor: `max_sequence_length` if the
backbone config has it, else `max_position_embeddings`, else 2048. -/
def contextLenOf (c : BackboneConfig) : Nat :=
  match c.max_sequence_length with
  | some n => n
  | none =>
    match c.max_position_embeddings with
    | some n => n
    | none => 2048

/-- The two destructive edits of the constructor on `self.adapter`:
`self.adapter["peft_type"] = self.adapter.pop("type").upper()` and
`self.adapter["tokenizer_name_or_path"] = self.model_name`.
A missing "type" key is a `KeyError`; a non-string one fails `.upper()`. -/
def adapterTransform (model_name : String) (d : AdapterDict) : Except PyError AdapterDict :=
  match dictGet d "type" with
  | none => .error .keyError
  | some (.str s) =>
    .ok (dictSet (dictSet (dictRemove d "type") "peft_type" (.str s.toUpper))
      "tokenizer_name_or_path" (.str model_name))
  | some _ => .error .attributeError

/-- `LLM.build_outputs`: more than one output feature config is a
`ValueError`; otherwise the single config gets `input_size` assigned and
exactly one feature is built from it. -/
def buildOutputs (env : Env) (cfgs : List OutputFeatureConfigL) (input_size : Nat) :
    Except PyError (List (String × OutputFeatureL)) :=
  if 1 < cfgs.length then .error .valueError
  else
    match cfgs.get? 0 with
    | none => .error .indexError
    | some c =>
      let c2 : OutputFeatureConfigL := { c with input_size := some input_size }
      .ok [(c2.name, env.buildSingleOutput c2)]

/-- `LLM.__init__`: deep-copy the adapter dict, load the backbone, probe
the context length, optionally transform the copied adapter dict in place
and wrap the model with peft, derive the generation bookkeeping, build the
input/output features, and extract the single output feature's decoder. -/
def initLLM (env : Env) (σ0 : Store AdapterDict) (config_obj : LLMModelConfigL) :
    Except PyError (LLMState × Store AdapterDict) :=
  let model_name := config_obj.model_name
  let p : Option Ref × Store AdapterDict :=
    match config_obj.adapter with
    | none => (none, σ0)
    | some r =>
      let a := σ0.alloc (σ0.read r)
      (some a.1, a.2)
  let adapterRef := p.1
  let σ1 := p.2
  let context_len := contextLenOf (env.configOf model_name)
  let cfgAdapterTruthy : Bool :=
    match config_obj.adapter with
    | none => false
    | some r => !(σ1.read r).isEmpty
  let wrapped : Except PyError (PModel × Store AdapterDict) :=
    if cfgAdapterTruthy then
      match adapterRef with
      | some ar =>
        match adapterTransform model_name (σ1.read ar) with
        | .error e => .error e
        | .ok d2 => .ok (.peft (.pretrained model_name) d2, σ1.write ar d2)
      | none => .ok (.pretrained model_name, σ1)
    else .ok (.pretrained model_name, σ1)
  match wrapped with
  | .error e => .error e
  | .ok (model1, σ2) =>
    let generation_config := config_obj.generation_config
    let max_new_tokens := generation_config.max_new_tokens
    let max_input_length : Int := (context_len : Int) - (max_new_tokens : Int) - 8
    let input_features := config_obj.input_features.map (fun fc => fc.name)
    match buildOutputs env config_obj.output_features (env.configOf model_name).vocab_size with
    | .error e => .error e
    | .ok output_features =>
      match output_features.get? 0 with
      | none => .error .indexError
      | some kv =>
        .ok
          ({ config_obj := config_obj
             model_name := model_name
             adapterRef := adapterRef
             adapter := adapterRef.map (fun r => σ2.read r)
             model := model1
             context_len := context_len
             generation_config := generation_config
             max_new_tokens := max_new_tokens
             max_input_length := max_input_length
             input_features := input_features
             output_features := output_features
             output_feature_decoder := kv.2
             eval_loss_metric := ⟨0, 0⟩
             eval_additional_losses_metrics := ⟨0, 0⟩
             additional_losses := [] }, σ2)

/-! ### Forward pass -/

/-- A target value supplied either as a numpy array or as a tensor. -/
inductive NpOrTensor where
  | np (data : List (List Int))
  | tensor (t : Tensor2)
deriving DecidableEq, Repr

/-- The two call shapes of `forward`: an inputs dict, or an
(inputs, targets) pair. -/
inductive ForwardInputs where
  | plain (inputs : List (String × Tensor2))
  | withTargets (inputs : List (String × Tensor2)) (targets : List (String × NpOrTensor))
deriving DecidableEq, Repr

/-- The inputs dict of either call shape. -/
def ForwardInputs.inputsOf : ForwardInputs → List (String × Tensor2)
  | .plain i => i
  | .withTargets i _ => i

/-- The targets-to-tensor conversion at the top of `forward`
(`torch.from_numpy` on arrays, tensors passed through). -/
def convertTargets (ts : List (String × NpOrTensor)) : List (String × Tensor2) :=
  ts.map (fun kv => (kv.1, match kv.2 with
    | .np d => Tensor2.mk d .cpu
    | .tensor t => t))

/-- The result of `forward`: composite-keyed tensors on the adapter path,
or the decoded generation result keyed by feature name otherwise. -/
inductive ForwardOut where
  | tensors (out : List ((String × String) × Tensor2R))
  | generated (out : List (String × PredEntry))

/-- `LLM.get_input_ids`: the sole input feature's tensor, cast to int32. -/
def LLM.getInputIds (st : LLMState) (inputs : List (String × Tensor2)) :
    Except PyError Tensor2 :=
  match st.config_obj.input_features.get? 0 with
  | none => .error .indexError
  | some fc =>
    match dictGet inputs fc.name with
    | none => .error .keyError
    | some t => .ok t.typeInt32

/-- `input_ids[:, -self.max_input_length:]`: keep at most the last
`max_input_length` tokens of every row. -/
def LLM.truncateIds (st : LLMState) (t : Tensor2) : Tensor2 :=
  ⟨t.data.map (pySliceFrom (-st.max_input_length)), t.device⟩

/-- Truncate and move the input ids to the model's device. -/
def truncToDev (env : Env) (st : LLMState) (t : Tensor2) : Tensor2 :=
  (LLM.truncateIds st t).toDev (env.deviceOf st.model)

/-- The adapter path's averaged logits: run the peft model forward, then
`torch.mean(logits, dim=1, dtype=torch.float32).to(model.device)`. -/
def LLM.adapterAveragedLogits (env : Env) (st : LLMState) (ids : Tensor2) : Tensor2R :=
  (torchMeanDim1F32 ⟨env.fwdOf st.model ids.data, DType.float16, env.deviceOf st.model⟩).toDev
    (env.deviceOf st.model)

/-- `LLM.extract`: wrap the decoded generation output under the single
output feature's name. -/
def LLM.extract (st : LLMState) (outputs : PredEntry) :
    Except PyError (List (String × PredEntry)) :=
  match st.config_obj.output_features.get? 0 with
  | none => .error .indexError
  | some ofc => .ok [(ofc.name, outputs)]

/-- `LLM.forward`: convert targets, assert that the input names equal the
configured input feature names, extract/truncate/move the input ids, and
branch on adapter presence: the adapter path averages the logits in
float32 and routes them through the decoder under the composite key
(feature name, "logits"); the generation path generates, decodes and
extracts under the feature name.  Modelled from the spec: the helper
`set_output_feature_tensor` (not under src/) stores the decoder output
under the composite key of feature name and tensor name. -/
def LLM.forward (env : Env) (st : LLMState) (inp : ForwardInputs) (mask : Option Tensor2) :
    Except PyError ForwardOut :=
  let inputs := inp.inputsOf
  let _targets : Option (List (String × Tensor2)) :=
    match inp with
    | .plain _ => none
    | .withTargets _ ts => some (convertTargets ts)
  if inputs.map Prod.fst = st.input_features then
    match LLM.getInputIds st inputs with
    | .error e => .error e
    | .ok ids0 =>
      let ids := truncToDev env st ids0
      if adapterTruthy st.adapter then
        let averaged := LLM.adapterAveragedLogits env st ids
        match st.config_obj.output_features.get? 0 with
        | none => .error .indexError
        | some ofc =>
          .ok (.tensors [((ofc.name, LOGITS), st.output_feature_decoder.decodeLogits averaged)])
      else
        let genOut := env.generateOf st.model ids.data mask st.generation_config
        let decoded := st.output_feature_decoder.decodeGenerated genOut ids
        match LLM.extract st decoded with
        | .error e => .error e
        | .ok wrapped => .ok (.generated wrapped)
  else .error .assertionError

/-! ### Target realignment, metrics, eval loss -/

/-- `LLM._realign_target_tensor`: deep-copy the targets dict, then pad the
copy's target tensor on the right by the difference between the
prediction length and the target length (a negative difference trims the
copy, per the padding primitive's semantics).  Returns the reference to
the fresh copy. -/
def realignTargetTensor (σ : Store TD) (targetsRef : Ref) (preds : PredDict)
    (of_name : String) : Except PyError (Ref × Store TD) :=
  let ts := σ.read targetsRef
  let a := σ.alloc ts
  match dictGet ts of_name with
  | none => .error .attributeError
  | some t =>
    match dictGet preds of_name with
    | none => .error .keyError
    | some pe =>
      match dictGet pe.entries "predictions" with
      | none => .error .attributeError
      | some p =>
        let amt : Int := (p.size1 : Int) - (t.size1 : Int)
        .ok (a.1, a.2.write a.1 (dictSet ts of_name (torchPadLastDim t amt)))

/-- The per-feature loop of `LLM.update_metrics`: text features realign a
fresh copy of the targets and update their metrics on it; other features
update their metrics on the targets directly. -/
def updateMetricsLoop (targetsRef : Ref) (preds : PredDict) :
    List (String × OutputFeatureL) → Store TD →
      Except PyError (List (String × OutputFeatureL) × Store TD)
  | [], σ => .ok ([], σ)
  | (n, f) :: rest, σ =>
    if f.isText then
      match realignTargetTensor σ targetsRef preds n with
      | .error e => .error e
      | .ok (cr, σ1) =>
        match dictGet (σ1.read cr) n with
        | none => .error .keyError
        | some t =>
          match dictGet preds n with
          | none => .error .keyError
          | some pe =>
            match updateMetricsLoop targetsRef preds rest σ1 with
            | .error e => .error e
            | .ok (rest2, σ2) =>
              .ok ((n, { f with metricSt := f.updateMetricsFn f.metricSt t pe }) :: rest2, σ2)
    else
      match dictGet (σ.read targetsRef) n with
      | none => .error .keyError
      | some t =>
        match dictGet preds n with
        | none => .error .keyError
        | some pe =>
          match updateMetricsLoop targetsRef preds rest σ with
          | .error e => .error e
          | .ok (rest2, σ2) =>
            .ok ((n, { f with metricSt := f.updateMetricsFn f.metricSt t pe }) :: rest2, σ2)

/-- The per-feature loop of `LLM.eval_loss`, accumulating
`loss.weight * eval_loss`: text features realign a fresh copy of the
targets; other features move the target tensor and every prediction
tensor to the cpu in place (mutating the caller's dicts) first. -/
def evalLossLoop (targetsRef : Ref) (acc : Rat) :
    List (String × OutputFeatureL) → Store TD → PredDict →
      Except PyError (Rat × Store TD × PredDict)
  | [], σ, preds => .ok (acc, σ, preds)
  | (n, f) :: rest, σ, preds =>
    if f.isText then
      match realignTargetTensor σ targetsRef preds n with
      | .error e => .error e
      | .ok (cr, σ1) =>
        match dictGet (σ1.read cr) n with
        | none => .error .keyError
        | some t =>
          match dictGet preds n with
          | none => .error .keyError
          | some pe =>
            evalLossLoop targetsRef (acc + f.lossWeight * f.evalLossFn t pe) rest σ1 preds
    else
      match dictGet (σ.read targetsRef) n with
      | none => .error .keyError
      | some t =>
        let tCpu := t.toDev .cpu
        let σ1 := σ.write targetsRef (dictSet (σ.read targetsRef) n tCpu)
        match dictGet preds n with
        | none => .error .keyError
        | some pe =>
          let pe1 : PredEntry := ⟨pe.entries.map (fun kv => (kv.1, kv.2.toDev .cpu))⟩
          let preds1 := dictSet preds n pe1
          evalLossLoop targetsRef (acc + f.lossWeight * f.evalLossFn tCpu pe1) rest σ1 preds1

/-- `LLM.eval_loss`: the weighted per-feature loss sum plus the summed
additional losses (`self.losses()`, an external collaborator held as a
state field; zero when there are none). -/
def LLM.evalLoss (st : LLMState) (σ : Store TD) (targetsRef : Ref) (preds : PredDict) :
    Except PyError (Rat × Rat × Store TD × PredDict) :=
  match evalLossLoop targetsRef 0 st.output_features σ preds with
  | .error e => .error e
  | .ok (el, σ1, preds1) =>
    let al : Rat := if st.additional_losses.isEmpty then 0 else st.additional_losses.sum
    .ok (el, al, σ1, preds1)

/-- `LLM.update_metrics`: update every feature's own metrics, then, only
when an adapter is attached, compute `eval_loss` and feed the two running
mean accumulators. -/
def LLM.updateMetrics (st : LLMState) (σ : Store TD) (targetsRef : Ref) (preds : PredDict) :
    Except PyError (LLMState × Store TD × PredDict) :=
  match updateMetricsLoop targetsRef preds st.output_features σ with
  | .error e => .error e
  | .ok (feats, σ1) =>
    let st1 : LLMState := { st with output_features := feats }
    if adapterTruthy st1.adapter then
      match LLM.evalLoss st1 σ1 targetsRef preds with
      | .error e => .error e
      | .ok (el, al, σ2, preds2) =>
        .ok ({ st1 with
                eval_loss_metric := st1.eval_loss_metric.update el
                eval_additional_losses_metrics := st1.eval_additional_losses_metrics.update al },
             σ2, preds2)
    else .ok (st1, σ1, preds)

/-! ### Persistence -/

/-- `LLM.save`: the list of filesystem writes performed — the adapter
weights under the fixed filename iff an adapter is attached, else none. -/
def LLM.save (st : LLMState) (save_path : String) : List (String × PModel) :=
  if adapterTruthy st.adapter then
    [(joinPath save_path MODEL_WEIGHTS_FILE_NAME, st.model)]
  else []

/-- `LLM.load`: iff an adapter is attached, read the saved `PeftConfig`,
force it out of inference mode, reload a fresh backbone from the config's
base model identifier and re-wrap it from the saved adapter weights. -/
def LLM.load (env : Env) (st : LLMState) (save_path : String) : Except PyError LLMState :=
  if adapterTruthy st.adapter then
    let wpath := joinPath save_path MODEL_WEIGHTS_FILE_NAME
    match env.peftConfigFromPretrained wpath with
    | none => .error .fileNotFoundError
    | some cfg0 =>
      let cfg1 : PeftConfigL := { cfg0 with inference_mode := false }
      .ok { st with model := .peftFromSaved (.pretrained cfg1.base_model_name_or_path) wpath }
  else .ok st

/-! ### Concrete fixtures (used by the witness theorems) -/

/-- A concrete environment: a backbone with `max_position_embeddings`
2048 and vocabulary size 2, an identity decoder, and trivial feature
loss/metric callbacks. -/
def envW : Env :=
  { configOf := fun _ => ⟨none, some 2048, 2⟩
    fwdOf := fun _ ids => ids.map (fun row => row.map (fun v => [(v : Rat), 0]))
    deviceOf := fun _ => .cuda
    generateOf := fun _ ids _ _ => ⟨ids, []⟩
    peftConfigFromPretrained := fun _ => some ⟨"base-model", true⟩
    buildSingleOutput := fun c =>
      { name := c.name
        isText := true
        lossWeight := 1
        decodeLogits := fun t => t
        decodeGenerated := fun _ ids => ⟨[("predictions", ids)]⟩
        evalLossFn := fun _ _ => 0
        updateMetricsFn := fun s _ _ => s + 1
        metricSt := 0 } }

/-- An empty adapter-dict store. -/
def storeW : Store AdapterDict := ⟨fun _ => [], 0⟩

/-- A concrete model config without an adapter. -/
def cfgW : LLMModelConfigL :=
  { model_name := "gpt-x"
    adapter := none
    generation_config := ⟨10⟩
    input_features := [⟨"text_in"⟩]
    output_features := [⟨"text_out", none⟩] }

/-- A concrete prompt-tuning adapter dict (pre-construction shape). -/
def adRawW : AdapterDict := [("type", .str "prompt_tuning"), ("num_virtual_tokens", .int 8)]

/-- A store holding `adRawW` at reference 0. -/
def storeAdW : Store AdapterDict := ⟨fun _ => adRawW, 1⟩

/-- The concrete model config with the adapter at reference 0. -/
def cfgAdW : LLMModelConfigL := { cfgW with adapter := some 0 }

/-- The concrete output feature config used across witnesses. -/
def ofcW : OutputFeatureConfigL := ⟨"text_out", none⟩

/-- The concrete output feature built by `envW`. -/
def ofW : OutputFeatureL := envW.buildSingleOutput ⟨"text_out", some 2⟩

/-- The adapter dict after the constructor's destructive edits. -/
def adDictW : AdapterDict :=
  [("num_virtual_tokens", .int 8), ("peft_type", .str "PROMPT_TUNING"),
   ("tokenizer_name_or_path", .str "gpt-x")]

/-- A concrete constructed state without an adapter. -/
def stNoAd : LLMState :=
  { config_obj := cfgW
    model_name := "gpt-x"
    adapterRef := none
    adapter := none
    model := .pretrained "gpt-x"
    context_len := 2048
    generation_config := ⟨10⟩
    max_new_tokens := 10
    max_input_length := 2030
    input_features := ["text_in"]
    output_features := [("text_out", ofW)]
    output_feature_decoder := ofW
    eval_loss_metric := ⟨0, 0⟩
    eval_additional_losses_metrics := ⟨0, 0⟩
    additional_losses := [] }

/-- The same concrete state with a prompt-tuning adapter attached. -/
def stAd : LLMState :=
  { stNoAd with
      config_obj := cfgAdW
      adapterRef := some 1
      adapter := some adDictW
      model := .peft (.pretrained "gpt-x") adDictW }

/-- A variant with a small `max_input_length`, to exercise truncation. -/
def stTrunc : LLMState := { stAd with max_input_length := 3 }

/-- A concrete targets store: reference 0 holds one text target. -/
def storeTgtW : Store TD := ⟨fun _ => [("text_out", ⟨[[1, 2, 3]], .cpu⟩)], 1⟩

/-- Concrete predictions whose "predictions" tensor has 2 columns. -/
def predsShortW : PredDict := [("text_out", ⟨[("predictions", ⟨[[5, 6]], .cpu⟩)]⟩)]

/-- Concrete predictions whose "predictions" tensor has 5 columns. -/
def predsLongW : PredDict := [("text_out", ⟨[("predictions", ⟨[[5, 6, 7, 8, 9]], .cpu⟩)]⟩)]

/-! ## Lemmas and claim theorems -/

theorem Store.read_write_self {α : Type} (σ : Store α) (r : Ref) (v : α) :
    (σ.write r v).read r = v := by
  simp [Store.read, Store.write]

theorem Store.read_write_ne {α : Type} (σ : Store α) (r x : Ref) (v : α) (h : x ≠ r) :
    (σ.write r v).read x = σ.read x := by
  simp [Store.read, Store.write, h]

theorem Store.next_write {α : Type} (σ : Store α) (r : Ref) (v : α) :
    (σ.write r v).next = σ.next := rfl

theorem Store.read_alloc_new {α : Type} (σ : Store α) (v : α) :
    (σ.alloc v).2.read (σ.alloc v).1 = v := by
  simp [Store.read, Store.alloc]

theorem Store.read_alloc_old {α : Type} (σ : Store α) (v : α) (x : Ref) (h : x < σ.next) :
    (σ.alloc v).2.read x = σ.read x := by
  have hx : x ≠ σ.next := Nat.ne_of_lt h
  simp [Store.read, Store.alloc, hx]

theorem Store.next_alloc {α : Type} (σ : Store α) (v : α) :
    (σ.alloc v).2.next = σ.next + 1 := rfl

theorem dictGet_ne_nil {α : Type} {d : List (String × α)} {k : String} {v : α}
    (h : dictGet d k = some v) : d.isEmpty = false := by
  cases d with
  | nil => simp [dictGet] at h
  | cons a l => rfl

/-- C4: for every valid pair with `context_len > max_new_tokens + 8`, the
`max_input_length` derived at construction equals
`context_len − max_new_tokens − 8` (and is positive); `context_len` is the
probed backbone context length and `max_new_tokens` comes from the
generation config. -/
theorem init_derives_max_input_length (env : Env) (σ0 : Store AdapterDict)
    (cfg : LLMModelConfigL) (st : LLMState) (σ' : Store AdapterDict)
    (hinit : initLLM env σ0 cfg = .ok (st, σ'))
    (hvalid : (cfg.generation_config.max_new_tokens : Int) + 8 <
      (contextLenOf (env.configOf cfg.model_name) : Int)) :
    st.max_input_length =
      (contextLenOf (env.configOf cfg.model_name) : Int) -
        (cfg.generation_config.max_new_tokens : Int) - 8
    ∧ 0 < st.max_input_length
    ∧ st.context_len = contextLenOf (env.configOf cfg.model_name)
    ∧ st.max_new_tokens = cfg.generation_config.max_new_tokens := by
  unfold initLLM at hinit
  simp only [] at hinit
  split at hinit
  · exact absurd hinit (by simp)
  · split at hinit
    · exact absurd hinit (by simp)
    · split at hinit
      · exact absurd hinit (by simp)
      · cases hinit
        dsimp only []
        exact ⟨rfl, by omega, rfl, rfl⟩

/-- C4 witness: a concrete construction with context length 2048 and
`max_new_tokens = 10` yields `max_input_length = 2048 − 10 − 8`. -/
theorem init_derives_max_input_length_witness :
    ∃ st σ', initLLM envW storeW cfgW = .ok (st, σ') ∧
      st.max_input_length =
        (contextLenOf (envW.configOf cfgW.model_name) : Int) -
          (cfgW.generation_config.max_new_tokens : Int) - 8 ∧
      0 < st.max_input_length := by
  obtain ⟨st, σ', h⟩ : ∃ st σ', initLLM envW storeW cfgW = .ok (st, σ') := ⟨_, _, rfl⟩
  have hc := init_derives_max_input_length envW storeW cfgW st σ' h (by decide)
  exact ⟨st, σ', h, hc.1, hc.2.1⟩

/-- C7: more than one output feature config raises a configuration error
before any output feature is built; with exactly one config, exactly one
feature is built, from the config with its input size set to the
backbone vocabulary size. -/
theorem build_outputs_single_feature (env : Env) (cfgs : List OutputFeatureConfigL) (V : Nat) :
    (1 < cfgs.length → buildOutputs env cfgs V = .error .valueError)
    ∧ (∀ c, cfgs = [c] →
        buildOutputs env cfgs V =
          .ok [(c.name, env.buildSingleOutput { c with input_size := some V })]) := by
  constructor
  · intro h
    unfold buildOutputs
    rw [if_pos h]
  · intro c hc
    subst hc
    unfold buildOutputs
    simp

/-- C7 witness: two output feature configs give the configuration error;
one config builds exactly the one feature with `input_size` 2. -/
theorem build_outputs_single_feature_witness :
    buildOutputs envW [ofcW, ⟨"other", none⟩] 2 = .error .valueError
    ∧ buildOutputs envW [ofcW] 2 =
        .ok [(ofcW.name, envW.buildSingleOutput { ofcW with input_size := some 2 })] :=
  ⟨(build_outputs_single_feature envW [ofcW, ⟨"other", none⟩] 2).1 (by decide),
   (build_outputs_single_feature envW [ofcW] 2).2 ofcW rfl⟩

/-- C6: `save` writes the adapter weights to the fixed weights filename
under the save directory iff an adapter is attached, else writes nothing;
`load` iff an adapter is attached reads the saved adapter config, forces
it out of inference mode, reloads a fresh backbone from the config's
recorded base model identifier and re-wraps it from the saved weights,
and otherwise changes nothing. -/
theorem save_load_adapter_only (env : Env) (st : LLMState) (save_path : String) :
    (adapterTruthy st.adapter = true →
        LLM.save st save_path = [(joinPath save_path MODEL_WEIGHTS_FILE_NAME, st.model)])
    ∧ (adapterTruthy st.adapter = false → LLM.save st save_path = [])
    ∧ (adapterTruthy st.adapter = false → LLM.load env st save_path = .ok st)
    ∧ (adapterTruthy st.adapter = true →
        ∀ cfg0, env.peftConfigFromPretrained (joinPath save_path MODEL_WEIGHTS_FILE_NAME) =
            some cfg0 →
          LLM.load env st save_path =
            .ok { st with
                  model := PModel.peftFromSaved
                    (PModel.pretrained
                      ({ cfg0 with inference_mode := false } : PeftConfigL).base_model_name_or_path)
                    (joinPath save_path MODEL_WEIGHTS_FILE_NAME) })
    ∧ (adapterTruthy st.adapter = true →
        env.peftConfigFromPretrained (joinPath save_path MODEL_WEIGHTS_FILE_NAME) = none →
          LLM.load env st save_path = .error .fileNotFoundError) := by
  refine ⟨?_, ?_, ?_, ?_, ?_⟩
  · intro h
    unfold LLM.save
    rw [h]
    rfl
  · intro h
    unfold LLM.save
    rw [h]
    rfl
  · intro h
    unfold LLM.load
    rw [h]
    rfl
  · intro h cfg0 hc
    unfold LLM.load
    rw [h]
    simp only [hc, if_true]
  · intro h hc
    unfold LLM.load
    rw [h]
    simp only [hc, if_true]

/-- C6 witness: with the adapter state the save writes exactly the
weights file and the load rebuilds from the saved config's base model;
without the adapter, save writes nothing and load is the identity. -/
theorem save_load_adapter_only_witness :
    LLM.save stAd "dir" = [("dir/model_weights", stAd.model)]
    ∧ LLM.save stNoAd "dir" = []
    ∧ LLM.load envW stNoAd "dir" = .ok stNoAd
    ∧ LLM.load envW stAd "dir" =
        .ok { stAd with model := .peftFromSaved (.pretrained "base-model") "dir/model_weights" } := by
  have h1 := save_load_adapter_only envW stAd "dir"
  have h2 := save_load_adapter_only envW stNoAd "dir"
  exact ⟨h1.1 rfl, h2.2.1 rfl, h2.2.2.1 rfl, h1.2.2.2.1 rfl ⟨"base-model", true⟩ rfl⟩

theorem pySliceFrom_neg_eq_drop {α : Type} (m : Int) (hm : 0 < m) (row : List α) :
    pySliceFrom (-m) row = row.drop (row.length - m.toNat) := by
  unfold pySliceFrom
  rw [if_pos (by omega)]
  congr 1
  omega

/-- C2: the forward engine's truncation `input_ids[:, -max_input_length:]`
keeps, in every row, exactly the last `max_input_length` tokens (a suffix)
when the row is longer than `max_input_length`, and leaves rows at or
below `max_input_length` untruncated; this happens to the input ids
before the backbone forward or generate call. -/
theorem forward_truncates_to_last_max_input_length (st : LLMState)
    (hm : 0 < st.max_input_length) (t : Tensor2) :
    (LLM.truncateIds st t).data =
      t.data.map (fun row => row.drop (row.length - st.max_input_length.toNat))
    ∧ (∀ row ∈ t.data, st.max_input_length.toNat < row.length →
        (pySliceFrom (-st.max_input_length) row).length = st.max_input_length.toNat)
    ∧ (∀ row ∈ t.data, (pySliceFrom (-st.max_input_length) row).IsSuffix row)
    ∧ (∀ row ∈ t.data, row.length ≤ st.max_input_length.toNat →
        pySliceFrom (-st.max_input_length) row = row)
    ∧ (LLM.truncateIds st t).device = t.device := by
  refine ⟨?_, ?_, ?_, ?_, rfl⟩
  · unfold LLM.truncateIds
    exact congrArg₂ Tensor2.mk
      (List.map_congr_left (fun row _ => pySliceFrom_neg_eq_drop _ hm row)) rfl |>.symm ▸ rfl
  · intro row _ h
    rw [pySliceFrom_neg_eq_drop _ hm, List.length_drop]
    omega
  · intro row _
    rw [pySliceFrom_neg_eq_drop _ hm]
    exact List.drop_suffix _ _
  · intro row _ h
    rw [pySliceFrom_neg_eq_drop _ hm]
    have hz : row.length - st.max_input_length.toNat = 0 := by omega
    rw [hz, List.drop_zero]

/-- C2 witness: with `max_input_length = 3`, a 5-token row is truncated
to exactly its last 3 tokens, and a 2-token row passes untruncated. -/
theorem forward_truncates_to_last_max_input_length_witness :
    0 < stTrunc.max_input_length
    ∧ (LLM.truncateIds stTrunc ⟨[[1, 2, 3, 4, 5], [1, 2]], .cpu⟩).data =
        [[1, 2, 3, 4, 5], [1, 2]].map
          (fun row => row.drop (row.length - stTrunc.max_input_length.toNat))
    ∧ (pySliceFrom (-stTrunc.max_input_length) [1, 2, 3, 4, 5]).length =
        stTrunc.max_input_length.toNat
    ∧ pySliceFrom (-stTrunc.max_input_length) ([1, 2] : List Int) = [1, 2] := by
  have h := forward_truncates_to_last_max_input_length stTrunc (by decide)
    ⟨[[1, 2, 3, 4, 5], [1, 2]], .cpu⟩
  refine ⟨by decide, h.1, ?_, ?_⟩
  · exact h.2.1 [1, 2, 3, 4, 5] (by simp) (by decide)
  · exact h.2.2.2.1 [1, 2] (by simp) (by decide)

/-- C9: construction deep-copies the adapter dict before wrapping and
applies the destructive edits (pop "type", uppercase it into "peft_type",
inject "tokenizer_name_or_path") only to the fresh copy: after a
successful construction the dict behind `config_obj.adapter` is unchanged,
`self.adapter` is the fresh reference, and only the copy holds the edited
dict. -/
theorem init_does_not_mutate_config_adapter (env : Env) (σ0 : Store AdapterDict)
    (cfg : LLMModelConfigL) (r : Ref) (s : String)
    (hr : cfg.adapter = some r) (hv : r < σ0.next)
    (hty : dictGet (σ0.read r) "type" = some (.str s))
    (st : LLMState) (σ' : Store AdapterDict)
    (hinit : initLLM env σ0 cfg = .ok (st, σ')) :
    σ'.read r = σ0.read r
    ∧ st.adapterRef = some σ0.next
    ∧ σ'.read σ0.next =
        dictSet (dictSet (dictRemove (σ0.read r) "type") "peft_type" (.str s.toUpper))
          "tokenizer_name_or_path" (.str cfg.model_name)
    ∧ st.adapter = some (σ'.read σ0.next)
    ∧ st.config_obj = cfg := by
  have hro : (σ0.alloc (σ0.read r)).2.read r = σ0.read r :=
    Store.read_alloc_old σ0 (σ0.read r) r hv
  have hrn : (σ0.alloc (σ0.read r)).2.read (σ0.alloc (σ0.read r)).1 = σ0.read r :=
    Store.read_alloc_new σ0 (σ0.read r)
  have hne : ((σ0.alloc (σ0.read r)).2.read r).isEmpty = false := by
    rw [hro]; exact dictGet_ne_nil hty
  unfold initLLM at hinit
  rw [hr] at hinit
  simp only [] at hinit
  rw [hne] at hinit
  simp only [Bool.not_false, if_true] at hinit
  rw [hrn] at hinit
  unfold adapterTransform at hinit
  rw [hty] at hinit
  simp only [] at hinit
  split at hinit
  · exact absurd hinit (by simp)
  · split at hinit
    · exact absurd hinit (by simp)
    · cases hinit
      dsimp only []
      have hwn : ∀ v, ((σ0.alloc (σ0.read r)).2.write (σ0.alloc (σ0.read r)).1 v).read
          (σ0.alloc (σ0.read r)).1 = v := fun v =>
        Store.read_write_self (σ0.alloc (σ0.read r)).2 (σ0.alloc (σ0.read r)).1 v
      have hwo : ∀ v, ((σ0.alloc (σ0.read r)).2.write (σ0.alloc (σ0.read r)).1 v).read r =
          σ0.read r := fun v => by
        have h1 : (σ0.alloc (σ0.read r)).1 = σ0.next := rfl
        rw [h1, Store.read_write_ne _ _ _ _ (Nat.ne_of_lt hv), hro]
      refine ⟨hwo _, rfl, ?_, rfl, rfl⟩
      exact hwn _

/-- C9 witness: constructing with the prompt-tuning dict at reference 0
leaves that dict unchanged and puts the edited copy at the fresh
reference. -/
theorem init_does_not_mutate_config_adapter_witness :
    ∃ st σ', initLLM envW storeAdW cfgAdW = .ok (st, σ') ∧
      σ'.read 0 = storeAdW.read 0 ∧
      st.adapterRef = some storeAdW.next ∧
      σ'.read storeAdW.next =
        dictSet (dictSet (dictRemove (storeAdW.read 0) "type") "peft_type"
            (.str "prompt_tuning".toUpper)) "tokenizer_name_or_path"
          (.str cfgAdW.model_name) := by
  obtain ⟨st, σ', h⟩ : ∃ st σ', initLLM envW storeAdW cfgAdW = .ok (st, σ') := ⟨_, _, rfl⟩
  have hc := init_does_not_mutate_config_adapter envW storeAdW cfgAdW 0 "prompt_tuning"
    rfl (by decide) rfl st σ' h
  exact ⟨st, σ', h, hc.1, hc.2.1, hc.2.2.1⟩

/-- C5: a successful `update_metrics` call leaves the running eval-loss
accumulator and the additional-losses accumulator unchanged when no
adapter is attached; iff an adapter is attached the two accumulators take
one running-mean update (their total weight grows by one, so they
change). -/
theorem update_metrics_accumulators_iff_adapter (st : LLMState) (σ : Store TD) (tr : Ref)
    (preds : PredDict) (st' : LLMState) (σ' : Store TD) (preds' : PredDict)
    (h : LLM.updateMetrics st σ tr preds = .ok (st', σ', preds')) :
    (adapterTruthy st.adapter = false →
        st'.eval_loss_metric = st.eval_loss_metric ∧
        st'.eval_additional_losses_metrics = st.eval_additional_losses_metrics)
    ∧ (adapterTruthy st.adapter = true →
        st'.eval_loss_metric.weight = st.eval_loss_metric.weight + 1 ∧
        st'.eval_additional_losses_metrics.weight = st.eval_additional_losses_metrics.weight + 1 ∧
        st'.eval_loss_metric ≠ st.eval_loss_metric ∧
        st'.eval_additional_losses_metrics ≠ st.eval_additional_losses_metrics) := by
  unfold LLM.updateMetrics at h
  constructor
  · intro ha
    split at h
    · exact absurd h (by simp)
    · dsimp only [] at h
      rw [ha] at h
      simp only [Bool.false_eq_true, if_false] at h
      cases h
      exact ⟨rfl, rfl⟩
  · intro ha
    split at h
    · exact absurd h (by simp)
    · dsimp only [] at h
      rw [ha] at h
      simp only [if_true] at h
      split at h
      · exact absurd h (by simp)
      · cases h
        refine ⟨rfl, rfl, ?_, ?_⟩
        · intro hc
          have : st.eval_loss_metric.weight + 1 = st.eval_loss_metric.weight :=
            congrArg MeanMetric.weight hc
          simp at this
        · intro hc
          have : st.eval_additional_losses_metrics.weight + 1 =
              st.eval_additional_losses_metrics.weight :=
            congrArg MeanMetric.weight hc
          simp at this

/-- C5 witness: the concrete no-adapter state leaves both accumulators
untouched; the concrete adapter state bumps both running means. -/
theorem update_metrics_accumulators_iff_adapter_witness :
    (∃ st' σ' preds', LLM.updateMetrics stNoAd storeTgtW 0 predsShortW = .ok (st', σ', preds')
      ∧ st'.eval_loss_metric = stNoAd.eval_loss_metric
      ∧ st'.eval_additional_losses_metrics = stNoAd.eval_additional_losses_metrics)
    ∧ (∃ st' σ' preds', LLM.updateMetrics stAd storeTgtW 0 predsShortW = .ok (st', σ', preds')
      ∧ st'.eval_loss_metric.weight = stAd.eval_loss_metric.weight + 1
      ∧ st'.eval_loss_metric ≠ stAd.eval_loss_metric) := by
  constructor
  · obtain ⟨st', σ', preds', h⟩ :
        ∃ st' σ' preds', LLM.updateMetrics stNoAd storeTgtW 0 predsShortW =
          .ok (st', σ', preds') := ⟨_, _, _, rfl⟩
    have hc := update_metrics_accumulators_iff_adapter stNoAd storeTgtW 0 predsShortW
      st' σ' preds' h
    exact ⟨st', σ', preds', h, (hc.1 rfl).1, (hc.1 rfl).2⟩
  · obtain ⟨st', σ', preds', h⟩ :
        ∃ st' σ' preds', LLM.updateMetrics stAd storeTgtW 0 predsShortW =
          .ok (st', σ', preds') := ⟨_, _, _, rfl⟩
    have hc := update_metrics_accumulators_iff_adapter stAd storeTgtW 0 predsShortW
      st' σ' preds' h
    exact ⟨st', σ', preds', h, (hc.2 rfl).1, (hc.2 rfl).2.2.1⟩

theorem realignTargetTensor_frame (σ : Store TD) (tr : Ref) (preds : PredDict) (n : String)
    (cr : Ref) (σ1 : Store TD) (h : realignTargetTensor σ tr preds n = .ok (cr, σ1)) :
    σ.next ≤ σ1.next ∧ ∀ x, x < σ.next → σ1.read x = σ.read x := by
  unfold realignTargetTensor at h
  dsimp only [] at h
  rcases h1 : dictGet (σ.read tr) n with _ | t
  · rw [h1] at h
    exact absurd h (by simp)
  · rw [h1] at h
    simp only [] at h
    rcases h2 : dictGet preds n with _ | pe
    · rw [h2] at h
      exact absurd h (by simp)
    · rw [h2] at h
      simp only [] at h
      rcases h3 : dictGet pe.entries "predictions" with _ | p
      · rw [h3] at h
        exact absurd h (by simp)
      · rw [h3] at h
        simp only [] at h
        cases h
        constructor
        · rw [Store.next_write, Store.next_alloc]
          exact Nat.le_succ _
        · intro x hx
          rw [Store.read_write_ne _ _ _ _ (by exact Nat.ne_of_lt hx),
            Store.read_alloc_old _ _ _ hx]

theorem updateMetricsLoop_frame (tr : Ref) (preds : PredDict)
    (feats : List (String × OutputFeatureL)) :
    ∀ (σ : Store TD), (∀ p ∈ feats, p.2.isText = true) →
      ∀ feats2 σ2, updateMetricsLoop tr preds feats σ = .ok (feats2, σ2) →
        σ.next ≤ σ2.next ∧ (∀ x, x < σ.next → σ2.read x = σ.read x) ∧
          ∀ p ∈ feats2, p.2.isText = true := by
  induction feats with
  | nil =>
    intro σ _ feats2 σ2 h
    unfold updateMetricsLoop at h
    cases h
    exact ⟨Nat.le_refl _, fun x _ => rfl, by simp⟩
  | cons hd tl ih =>
    intro σ hall feats2 σ2 h
    obtain ⟨n, f⟩ := hd
    have hf : f.isText = true := hall (n, f) (List.mem_cons_self _ _)
    have htl : ∀ p ∈ tl, p.2.isText = true := fun p hp => hall p (List.mem_cons_of_mem _ hp)
    unfold updateMetricsLoop at h
    rw [if_pos hf] at h
    rcases hre : realignTargetTensor σ tr preds n with e | ⟨cr, σ1⟩
    · rw [hre] at h
      exact absurd h (by simp)
    · rw [hre] at h
      simp only [] at h
      rcases ht : dictGet (σ1.read cr) n with _ | t
      · rw [ht] at h
        exact absurd h (by simp)
      · rw [ht] at h
        simp only [] at h
        rcases hpe : dictGet preds n with _ | pe
        · rw [hpe] at h
          exact absurd h (by simp)
        · rw [hpe] at h
          simp only [] at h
          rcases hloop : updateMetricsLoop tr preds tl σ1 with e | ⟨rest2, σ2x⟩
          · rw [hloop] at h
            exact absurd h (by simp)
          · rw [hloop] at h
            simp only [] at h
            cases h
            obtain ⟨h1, h2⟩ := realignTargetTensor_frame σ tr preds n cr σ1 hre
            obtain ⟨h3, h4, h5⟩ := ih σ1 htl _ _ hloop
            refine ⟨Nat.le_trans h1 h3, ?_, ?_⟩
            · intro x hx
              rw [h4 x (Nat.lt_of_lt_of_le hx h1), h2 x hx]
            · intro p hp
              rcases List.mem_cons.mp hp with hh | hh
              · rw [hh]
                exact hf
              · exact h5 p hh

theorem evalLossLoop_frame (tr : Ref) (feats : List (String × OutputFeatureL)) :
    ∀ (acc : Rat) (σ : Store TD) (preds : PredDict), (∀ p ∈ feats, p.2.isText = true) →
      ∀ el σ2 preds2, evalLossLoop tr acc feats σ preds = .ok (el, σ2, preds2) →
        σ.next ≤ σ2.next ∧ (∀ x, x < σ.next → σ2.read x = σ.read x) ∧ preds2 = preds := by
  induction feats with
  | nil =>
    intro acc σ preds _ el σ2 preds2 h
    unfold evalLossLoop at h
    cases h
    exact ⟨Nat.le_refl _, fun x _ => rfl, rfl⟩
  | cons hd tl ih =>
    intro acc σ preds hall el σ2 preds2 h
    obtain ⟨n, f⟩ := hd
    have hf : f.isText = true := hall (n, f) (List.mem_cons_self _ _)
    have htl : ∀ p ∈ tl, p.2.isText = true := fun p hp => hall p (List.mem_cons_of_mem _ hp)
    unfold evalLossLoop at h
    rw [if_pos hf] at h
    rcases hre : realignTargetTensor σ tr preds n with e | ⟨cr, σ1⟩
    · rw [hre] at h
      exact absurd h (by simp)
    · rw [hre] at h
      simp only [] at h
      rcases ht : dictGet (σ1.read cr) n with _ | t
      · rw [ht] at h
        exact absurd h (by simp)
      · rw [ht] at h
        simp only [] at h
        rcases hpe : dictGet preds n with _ | pe
        · rw [hpe] at h
          exact absurd h (by simp)
        · rw [hpe] at h
          simp only [] at h
          obtain ⟨h1, h2⟩ := realignTargetTensor_frame σ tr preds n cr σ1 hre
          obtain ⟨h3, h4, h5⟩ := ih _ σ1 preds htl el σ2 preds2 h
          refine ⟨Nat.le_trans h1 h3, ?_, h5⟩
          intro x hx
          rw [h4 x (Nat.lt_of_lt_of_le hx h1), h2 x hx]

/-- C10: for text output features, `update_metrics` and `eval_loss` never
mutate the caller's targets mapping — realignment deep-copies the targets
and pads only the copy, so the dict behind the targets reference is
unchanged after a successful metric update or loss computation. -/
theorem update_metrics_does_not_mutate_targets (st : LLMState) (σ : Store TD) (tr : Ref)
    (preds : PredDict) (hall : ∀ p ∈ st.output_features, p.2.isText = true)
    (htr : tr < σ.next) :
    (∀ st' σ' preds', LLM.updateMetrics st σ tr preds = .ok (st', σ', preds') →
        σ'.read tr = σ.read tr)
    ∧ (∀ el al σ' preds', LLM.evalLoss st σ tr preds = .ok (el, al, σ', preds') →
        σ'.read tr = σ.read tr) := by
  have hev : ∀ (st0 : LLMState) (σ0 : Store TD), σ.next ≤ σ0.next →
      (∀ p ∈ st0.output_features, p.2.isText = true) →
      ∀ el al σ' preds', LLM.evalLoss st0 σ0 tr preds = .ok (el, al, σ', preds') →
        ∀ x, x < σ.next → σ'.read x = σ0.read x := by
    intro st0 σ0 hle hall0 el al σ' preds' h x hx
    unfold LLM.evalLoss at h
    rcases hloop : evalLossLoop tr 0 st0.output_features σ0 preds with e | ⟨el2, σ2, preds2⟩
    · rw [hloop] at h
      exact absurd h (by simp)
    · rw [hloop] at h
      simp only [] at h
      cases h
      obtain ⟨_, h4, _⟩ := evalLossLoop_frame tr st0.output_features 0 σ0 preds hall0
        _ _ _ hloop
      exact h4 x (Nat.lt_of_lt_of_le hx hle)
  constructor
  · intro st' σ' preds' h
    unfold LLM.updateMetrics at h
    rcases hloop : updateMetricsLoop tr preds st.output_features σ with e | ⟨feats2, σ1⟩
    · rw [hloop] at h
      exact absurd h (by simp)
    · rw [hloop] at h
      simp only [] at h
      obtain ⟨h1, h2, h3⟩ :=
        updateMetricsLoop_frame tr preds st.output_features σ hall feats2 σ1 hloop
      split at h
      · rcases hel : LLM.evalLoss { st with output_features := feats2 } σ1 tr preds
            with e | ⟨el, al, σ2, preds2⟩
        · rw [hel] at h
          exact absurd h (by simp)
        · rw [hel] at h
          simp only [] at h
          cases h
          rw [hev { st with output_features := feats2 } σ1 h1 h3 _ _ _ _ hel tr htr,
            h2 tr htr]
      · cases h
        exact h2 tr htr
  · intro el al σ' preds' h
    exact hev st σ (Nat.le_refl _) hall el al σ' preds' h tr htr

/-- C10 witness: on the concrete all-text state, a successful
`update_metrics` call leaves the caller's targets dict unchanged. -/
theorem update_metrics_does_not_mutate_targets_witness :
    ∃ st' σ' preds', LLM.updateMetrics stAd storeTgtW 0 predsLongW = .ok (st', σ', preds')
      ∧ σ'.read 0 = storeTgtW.read 0 := by
  obtain ⟨st', σ', preds', h⟩ :
      ∃ st' σ' preds', LLM.updateMetrics stAd storeTgtW 0 predsLongW =
        .ok (st', σ', preds') := ⟨_, _, _, rfl⟩
  have hc := update_metrics_does_not_mutate_targets stAd storeTgtW 0 predsLongW
    (by decide) (by decide)
  exact ⟨st', σ', preds', h, hc.1 st' σ' preds' h⟩

theorem dictGet_map_overwrite {α : Type} (l : List (String × α)) (k : String) (v : α) :
    dictGet (l.map (fun kv => if kv.1 == k then (k, v) else kv)) k =
      if dictContains l k then some v else none := by
  induction l with
  | nil => rfl
  | cons a l ih =>
    by_cases hak : a.1 == k
    · simp [dictGet, dictContains, hak]
    · have hak2 : (a.1 == k) = false := by
        simp only [Bool.not_eq_true] at hak
        exact hak
      simp only [List.map_cons, hak2, Bool.false_eq_true, if_false, dictGet, dictContains,
        Bool.false_or, ih]

theorem dictGet_append_new {α : Type} (d : List (String × α)) (k : String) (v : α)
    (hc : dictContains d k = false) : dictGet (d ++ [(k, v)]) k = some v := by
  induction d with
  | nil => simp [dictGet]
  | cons a l ih =>
    simp only [dictContains, Bool.or_eq_false_iff] at hc
    simp only [List.cons_append, dictGet, hc.1, if_false]
    exact ih hc.2

theorem dictGet_dictSet_self {α : Type} (d : List (String × α)) (k : String) (v : α) :
    dictGet (dictSet d k v) k = some v := by
  unfold dictSet
  by_cases hc : dictContains d k
  · rw [if_pos hc, dictGet_map_overwrite, if_pos hc]
  · rw [if_neg hc]
    exact dictGet_append_new d k v (by rw [Bool.eq_false_iff]; exact hc)

theorem padRow_zero (r : List Int) : padRow r 0 = r := by
  simp [padRow]

theorem torchPadLastDim_zero (t : Tensor2) : torchPadLastDim t 0 = t := by
  simp [torchPadLastDim, padRow_zero]

/-- C3 counterexample: the target tensor [[1, 2, 3]] has length 3, which
is at least the prediction length 2, yet realignment does not leave it
unchanged (nor pad it): the realigned copy holds [[1, 2]] — a token was
removed, because the padding primitive receives the negative width 2 − 3. -/
theorem realign_truncates_counterexample :
    dictGet (storeTgtW.read 0) "text_out" = some ⟨[[1, 2, 3]], .cpu⟩
    ∧ dictGet predsShortW "text_out" = some ⟨[("predictions", ⟨[[5, 6]], .cpu⟩)]⟩
    ∧ ∃ σ', realignTargetTensor storeTgtW 0 predsShortW "text_out" = .ok (1, σ')
        ∧ dictGet (σ'.read 1) "text_out" = some ⟨[[1, 2]], .cpu⟩ := by
  exact ⟨rfl, rfl, _, rfl, rfl⟩

/-- C3 (amended): realignment deep-copies the targets and stores in the
copy a tensor that is the target unchanged when the lengths are equal,
the target zero-padded on the right when the prediction is longer, and —
unlike the original claim — the target truncated to the prediction length
(tokens removed) when the target is strictly longer; realigning the
realigned copy again returns the same tensor (idempotence). -/
theorem realign_amended (σ : Store TD) (tr : Ref) (preds : PredDict) (n : String)
    (t : Tensor2) (pe : PredEntry) (p : Tensor2)
    (ht : dictGet (σ.read tr) n = some t)
    (hpe : dictGet preds n = some pe)
    (hp : dictGet pe.entries "predictions" = some p)
    (hrect : ∀ r ∈ t.data, r.length = t.size1) :
    ∃ σ', realignTargetTensor σ tr preds n = .ok (σ.next, σ')
      ∧ ∃ t', dictGet (σ'.read σ.next) n = some t'
        ∧ (t.size1 ≤ p.size1 →
            t'.data = t.data.map (fun row => row ++ List.replicate (p.size1 - t.size1) (0 : Int)))
        ∧ (p.size1 < t.size1 → t'.data = t.data.map (fun row => row.take p.size1))
        ∧ (p.size1 = t.size1 → t' = t)
        ∧ ∀ cr2 σ2, realignTargetTensor σ' σ.next preds n = .ok (cr2, σ2) →
            dictGet (σ2.read cr2) n = some t' := by
  have hs1 : (σ.alloc (σ.read tr)).1 = σ.next := rfl
  have hok : realignTargetTensor σ tr preds n =
      .ok (σ.next, (σ.alloc (σ.read tr)).2.write σ.next
        (dictSet (σ.read tr) n (torchPadLastDim t ((p.size1 : Int) - (t.size1 : Int))))) := by
    unfold realignTargetTensor
    dsimp only []
    rw [ht]
    simp only []
    rw [hpe]
    simp only []
    rw [hp]
    simp only []
    rfl
  refine ⟨_, hok, torchPadLastDim t ((p.size1 : Int) - (t.size1 : Int)), ?_, ?_, ?_, ?_, ?_⟩
  · rw [Store.read_write_self]
    exact dictGet_dictSet_self _ _ _
  · intro hle
    unfold torchPadLastDim
    refine List.map_congr_left ?_
    intro row _
    unfold padRow
    rw [if_pos (by omega)]
    congr 1
    congr 1
    omega
  · intro hlt
    unfold torchPadLastDim
    refine List.map_congr_left ?_
    intro row hrow
    unfold padRow
    rw [if_neg (by omega)]
    rw [hrect row hrow]
    congr 1
    omega
  · intro heq
    rw [heq]
    simp only [sub_self]
    exact torchPadLastDim_zero t
  · intro cr2 σ2 h2
    set padded := torchPadLastDim t ((p.size1 : Int) - (t.size1 : Int)) with hpad
    have hsz : padded.size1 = p.size1 ∨ t.data = [] := by
      rcases hd : t.data with _ | ⟨r, rs⟩
      · exact Or.inr rfl
      · left
        have hr : r.length = t.size1 := hrect r (by rw [hd]; exact List.mem_cons_self _ _)
        have hdata : padded.data = padRow r ((p.size1 : Int) - (t.size1 : Int)) ::
            rs.map (fun row => padRow row ((p.size1 : Int) - (t.size1 : Int))) := by
          rw [hpad]
          unfold torchPadLastDim
          rw [hd]
          rfl
        have hsz1 : padded.size1 = (padRow r ((p.size1 : Int) - (t.size1 : Int))).length := by
          unfold Tensor2.size1
          rw [hdata]
          rfl
        rw [hsz1]
        unfold padRow
        by_cases hcase : (0 : Int) ≤ (p.size1 : Int) - (t.size1 : Int)
        · rw [if_pos hcase, List.length_append, List.length_replicate, hr]
          omega
        · rw [if_neg hcase, List.length_take, hr]
          omega
    have hget2 : dictGet (((σ.alloc (σ.read tr)).2.write σ.next
        (dictSet (σ.read tr) n padded)).read σ.next) n = some padded := by
      rw [Store.read_write_self]
      exact dictGet_dictSet_self _ _ _
    have hzero : torchPadLastDim padded ((p.size1 : Int) - (padded.size1 : Int)) = padded := by
      rcases hsz with hsz | hsz
      · rw [hsz, sub_self]
        exact torchPadLastDim_zero padded
      · have hpadded : padded = ⟨[], t.device⟩ := by
          rw [hpad]
          unfold torchPadLastDim
          rw [hsz]
          rfl
        rw [hpadded]
        rfl
    unfold realignTargetTensor at h2
    dsimp only [] at h2
    rw [hget2] at h2
    simp only [] at h2
    rw [hpe] at h2
    simp only [] at h2
    rw [hp] at h2
    simp only [] at h2
    rw [hzero] at h2
    cases h2
    rw [Store.read_write_self]
    exact dictGet_dictSet_self _ _ _

/-- C3 witness (for the amended claim): equal lengths leave the target
unchanged and a longer prediction only appends zero padding. -/
theorem realign_amended_witness :
    ∃ σ', realignTargetTensor storeTgtW 0 predsLongW "text_out" = .ok (storeTgtW.next, σ')
      ∧ ∃ t', dictGet (σ'.read storeTgtW.next) "text_out" = some t'
        ∧ t'.data = [[1, 2, 3]].map (fun row => row ++ List.replicate 2 (0 : Int)) := by
  obtain ⟨σ', hok, t', hget, hpad, _, _, _⟩ :=
    realign_amended storeTgtW 0 predsLongW "text_out" ⟨[[1, 2, 3]], .cpu⟩
      ⟨[("predictions", ⟨[[5, 6, 7, 8, 9]], .cpu⟩)]⟩ ⟨[[5, 6, 7, 8, 9]], .cpu⟩
      rfl rfl rfl (by decide)

  exact ⟨σ', hok, t', hget, by simpa using hpad (by decide)⟩

theorem sumColumns_length (rest : List (List Rat)) :
    ∀ acc : List Rat, (∀ r ∈ rest, r.length = acc.length) →
      (sumColumns acc rest).length = acc.length := by
  induction rest with
  | nil =>
    intro acc _
    rfl
  | cons r rs ih =>
    intro acc h
    have hr : r.length = acc.length := h r (List.mem_cons_self _ _)
    have hz : (List.zipWith (fun x y => x + y) acc r).length = acc.length := by
      rw [List.length_zipWith, hr, min_self]
    have hstep : sumColumns acc (r :: rs) =
        sumColumns (List.zipWith (fun x y => x + y) acc r) rs := rfl
    rw [hstep, ih (List.zipWith (fun x y => x + y) acc r)
      (fun q hq => by rw [hz]; exact h q (List.mem_cons_of_mem _ hq)), hz]

theorem meanRows_length (rows : List (List Rat)) (V : Nat) (hne : rows ≠ [])
    (h : ∀ r ∈ rows, r.length = V) : (meanRows rows).length = V := by
  cases rows with
  | nil => exact absurd rfl hne
  | cons r rs =>
    unfold meanRows
    rw [List.length_map]
    have hr : r.length = V := h r (List.mem_cons_self _ _)
    rw [sumColumns_length rs r
      (fun q hq => by rw [hr]; exact h q (List.mem_cons_of_mem _ hq)), hr]

/-- C1: with an adapter attached, `forward` runs one pass through the
adapter-augmented backbone, averages the logits over the sequence
dimension in 32-bit float dtype into a `[batch, vocab]` tensor (vocab the
backbone's vocabulary size, for any input sequence lengths), routes it
through the output feature's decoder, and returns the decoder output
under the composite key (feature name, "logits"). -/
theorem forward_adapter_path (env : Env) (st : LLMState) (inp : ForwardInputs)
    (mask : Option Tensor2) (ids0 : Tensor2) (ofc : OutputFeatureConfigL)
    (hnames : inp.inputsOf.map Prod.fst = st.input_features)
    (hids : LLM.getInputIds st inp.inputsOf = .ok ids0)
    (hof : st.config_obj.output_features.get? 0 = some ofc)
    (had : adapterTruthy st.adapter = true)
    (hshape : ∀ mat ∈ env.fwdOf st.model (truncToDev env st ids0).data,
        mat ≠ [] ∧ ∀ row ∈ mat, row.length = (env.configOf st.model.rootName).vocab_size)
    (hbatch : (env.fwdOf st.model (truncToDev env st ids0).data).length = ids0.data.length) :
    LLM.forward env st inp mask =
      .ok (.tensors [((ofc.name, LOGITS),
        st.output_feature_decoder.decodeLogits
          (LLM.adapterAveragedLogits env st (truncToDev env st ids0)))])
    ∧ (LLM.adapterAveragedLogits env st (truncToDev env st ids0)).dtype = DType.float32
    ∧ (LLM.adapterAveragedLogits env st (truncToDev env st ids0)).data.length =
        ids0.data.length
    ∧ ∀ row ∈ (LLM.adapterAveragedLogits env st (truncToDev env st ids0)).data,
        row.length = (env.configOf st.model.rootName).vocab_size := by
  refine ⟨?_, rfl, ?_, ?_⟩
  · unfold LLM.forward
    dsimp only []
    rw [if_pos hnames, hids]
    simp only []
    rw [had]
    simp only [if_true]
    rw [hof]
  · unfold LLM.adapterAveragedLogits Tensor2R.toDev torchMeanDim1F32
    simp only [List.length_map]
    exact hbatch
  · intro row hrow
    unfold LLM.adapterAveragedLogits Tensor2R.toDev torchMeanDim1F32 at hrow
    simp only [List.mem_map] at hrow
    obtain ⟨mat, hmat, hrow⟩ := hrow
    obtain ⟨hne, hlen⟩ := hshape mat hmat
    rw [← hrow]
    exact meanRows_length mat _ hne hlen

/-- C1 witness: a concrete 2-token batch through the adapter state yields
the decoder output under ("text_out", "logits"), with a float32 averaged
tensor of batch size 1 whose row has the backbone vocabulary size 2. -/
theorem forward_adapter_path_witness :
    LLM.forward envW stAd (.plain [("text_in", ⟨[[1, 2]], .cpu⟩)]) none =
      .ok (.tensors [(("text_out", LOGITS),
        stAd.output_feature_decoder.decodeLogits
          (LLM.adapterAveragedLogits envW stAd
            (truncToDev envW stAd ⟨[[1, 2]], .cpu⟩)))])
    ∧ (LLM.adapterAveragedLogits envW stAd (truncToDev envW stAd ⟨[[1, 2]], .cpu⟩)).dtype =
        DType.float32
    ∧ (LLM.adapterAveragedLogits envW stAd
        (truncToDev envW stAd ⟨[[1, 2]], .cpu⟩)).data.length = 1
    ∧ ∀ row ∈ (LLM.adapterAveragedLogits envW stAd
        (truncToDev envW stAd ⟨[[1, 2]], .cpu⟩)).data,
        row.length = (envW.configOf stAd.model.rootName).vocab_size := by
  have h := forward_adapter_path envW stAd (.plain [("text_in", ⟨[[1, 2]], .cpu⟩)]) none
    ⟨[[1, 2]], .cpu⟩ ⟨"text_out", none⟩ rfl (by rfl) rfl rfl
    (by decide) rfl
  exact ⟨h.1, h.2.1, h.2.2.1, h.2.2.2⟩

theorem singleton_of_nodup_toFinset {l : List String} {a : String}
    (hn : l.Nodup) (h : l.toFinset = {a}) : l = [a] := by
  cases l with
  | nil =>
    rw [List.toFinset_nil] at h
    exact absurd h.symm (Finset.singleton_ne_empty a)
  | cons b tl =>
    have hb : b = a := by
      have hmem : b ∈ (b :: tl).toFinset := by simp
      rw [h] at hmem
      exact Finset.mem_singleton.mp hmem
    subst hb
    have htl : tl = [] := by
      by_contra hne
      obtain ⟨x, hx⟩ := List.exists_mem_of_ne_nil tl hne
      have hmem : x ∈ (b :: tl).toFinset := by simp [hx]
      rw [h] at hmem
      have hxb : x = b := Finset.mem_singleton.mp hmem
      rw [hxb] at hx
      exact (List.nodup_cons.mp hn).1 hx
    rw [htl]

/-- C8: at every forward call on an engine with its single configured
input feature, forward fails with the assertion error when the set of
input names differs from the configured input feature name set, and the
assertion passes (the result is never the assertion error) when the name
sets agree; the input mapping's keys are distinct, as in a Python dict. -/
theorem forward_asserts_input_names (env : Env) (st : LLMState) (inp : ForwardInputs)
    (mask : Option Tensor2) (ifc : FeatureConfigL)
    (hcfg : st.config_obj.input_features = [ifc])
    (hif : st.input_features = [ifc.name])
    (hnodup : (inp.inputsOf.map Prod.fst).Nodup) :
    ((inp.inputsOf.map Prod.fst).toFinset ≠ {ifc.name} →
        LLM.forward env st inp mask = .error .assertionError)
    ∧ ((inp.inputsOf.map Prod.fst).toFinset = {ifc.name} →
        LLM.forward env st inp mask ≠ .error .assertionError) := by
  constructor
  · intro hne
    have hlist : inp.inputsOf.map Prod.fst ≠ st.input_features := by
      intro hEq
      apply hne
      rw [hif] at hEq
      rw [hEq]
      simp
    unfold LLM.forward
    dsimp only []
    rw [if_neg hlist]
  · intro hset
    have hlist : inp.inputsOf.map Prod.fst = [ifc.name] :=
      singleton_of_nodup_toFinset hnodup hset
    obtain ⟨t0, htl⟩ : ∃ t0, inp.inputsOf = [(ifc.name, t0)] := by
      rcases hl : inp.inputsOf with _ | ⟨⟨k, v⟩, tl⟩
      · rw [hl] at hlist
        simp at hlist
      · rw [hl] at hlist
        simp only [List.map_cons, List.cons.injEq] at hlist
        exact ⟨v, by rw [hlist.1, List.map_eq_nil_iff.mp hlist.2]⟩
    intro hbad
    unfold LLM.forward at hbad
    dsimp only [] at hbad
    rw [if_pos (by rw [hlist, hif])] at hbad
    have hget : LLM.getInputIds st inp.inputsOf = .ok t0.typeInt32 := by
      unfold LLM.getInputIds
      rw [hcfg]
      simp only [List.get?]
      rw [htl]
      simp [dictGet]
    rw [hget] at hbad
    simp only [] at hbad
    split at hbad
    · split at hbad
      · exact absurd hbad (by simp)
      · exact absurd hbad (by simp)
    · rcases hofc : st.config_obj.output_features.get? 0 with _ | ofc
      · unfold LLM.extract at hbad
        rw [hofc] at hbad
        simp only [] at hbad
        exact absurd hbad (by simp)
      · unfold LLM.extract at hbad
        rw [hofc] at hbad
        simp only [] at hbad
        exact absurd hbad (by simp)

/-- C8 witness: on the concrete single-input engine, an input mapping
keyed "wrong" trips the assertion, while the matching key "text_in"
passes it. -/
theorem forward_asserts_input_names_witness :
    LLM.forward envW stNoAd (.plain [("wrong", ⟨[[1]], .cpu⟩)]) none =
      .error .assertionError
    ∧ LLM.forward envW stNoAd (.plain [("text_in", ⟨[[1]], .cpu⟩)]) none ≠
      .error .assertionError := by
  constructor
  · exact (forward_asserts_input_names envW stNoAd (.plain [("wrong", ⟨[[1]], .cpu⟩)]) none
      ⟨"text_in"⟩ rfl rfl (by decide)).1 (by decide)
  · exact (forward_asserts_input_names envW stNoAd (.plain [("text_in", ⟨[[1]], .cpu⟩)]) none
      ⟨"text_in"⟩ rfl rfl (by decide)).2 (by decide)

end LudwigLLM
